import Mathlib

/-!
Verification of `teltochronicle.py` (firmware-SDK history synthesizer).

This file is a shallow embedding of the Python source into Lean:
pure functions become Lean functions, the stateful git-repository
operations become explicit state passing over a `RepoState` record, and
fallible code returns `Option`/`Except`.  String manipulation is modelled
at the character-list level (`String.data`) with executable helpers that
mirror the semantics of the Python string operations actually used by the
source (`str.split` with a one-character separator, `str.strip`,
`str.lstrip("0")`, `str.replace(old, new, 1)`, `str.join`), so that every
definition evaluates inside the kernel on concrete inputs.
-/

namespace Teltochronicle

/-! ## Character-level string toolkit (models of the Python primitives) -/

/-- Model of Python's ASCII whitespace set as used by `str.strip()` on the
inputs this program handles (space, tab, newline, carriage return,
vertical tab, form feed). -/
def isPySpace (c : Char) : Bool :=
  c = ' ' || c = '\t' || c = '\n' || c = '\r' || c = '\x0b' || c = '\x0c'

/-- Model of `str.strip()`: remove leading and trailing whitespace. -/
def py_strip (s : String) : String :=
  String.mk (((s.data.dropWhile isPySpace).reverse.dropWhile isPySpace).reverse)

/-- Split a character list on a separator character; Python
`str.split(sep)` semantics: `"".split(sep) == [""]`, empty pieces kept. -/
def splitChar (sep : Char) : List Char → List (List Char)
  | [] => [[]]
  | c :: rest =>
    let r := splitChar sep rest
    if c = sep then [] :: r
    else
      match r with
      | h :: t => (c :: h) :: t
      | [] => [[c]]

/-- Model of `str.split(sep)` for a one-character separator. -/
def py_split (sep : Char) (s : String) : List String :=
  (splitChar sep s.data).map String.mk

/-- Model of `sep.join(parts)`. -/
def py_join (sep : String) : List String → String
  | [] => ""
  | [x] => x
  | x :: y :: xs => x ++ sep ++ py_join sep (y :: xs)

/-- Model of `s.lstrip("0")`: drop leading `'0'` characters. -/
def py_lstrip_zeros (s : String) : String :=
  String.mk (s.data.dropWhile (fun c => c = '0'))

/-- Is `p` a prefix of `l` (character lists)? -/
def leadsWith : List Char → List Char → Bool
  | [], _ => true
  | _ :: _, [] => false
  | p :: ps, c :: cs => p = c && leadsWith ps cs

/-- Helper for `replace_first`: replace the leftmost occurrence of `pat`
in the character list, if any. -/
def replaceFirstChars (pat rep : List Char) : List Char → List Char
  | [] => []
  | c :: rest =>
    if leadsWith pat (c :: rest) then rep ++ (c :: rest).drop pat.length
    else c :: replaceFirstChars pat rep rest

/-- Model of `s.replace(pat, rep, 1)`: replace the first occurrence only. -/
def replace_first (s pat rep : String) : String :=
  String.mk (replaceFirstChars pat.data rep.data s.data)

/-- Numeric value of a digit-character list (the digits are validated
separately before this is used, mirroring `int(...)` on a digit string). -/
def digitsToNat (l : List Char) : Nat :=
  l.foldl (fun n c => n * 10 + (c.toNat - '0'.toNat)) 0

/-- All characters are ASCII decimal digits. -/
def allDigits (l : List Char) : Bool :=
  l.all (fun c => '0' ≤ c && c ≤ '9')

/-! ## Version Descriptor (`derive_sdk_path_parts`, lines 339-374)

`derive_sdk_path_parts` raises `ValueError` on a malformed version
string; the model returns `none` in that case. -/

structure SdkParts where
  product_code : String
  unified_full : String
  unified_short : String
  gpl_version : String
  deriving DecidableEq, Repr

/-- Model of `derive_sdk_path_parts` (src lines 339-368).
`parts = version.split("_")`; fewer than 3 parts raises (`none`).
`product_code = parts[0]`, `unified_full = parts[-1]`; each dot component
of `unified_full` has its leading zeros stripped and is appended to
`comps` only when the stripped form is non-empty; `unified_short` is the
dot-join of `comps`, falling back to `unified_full` when `comps` is
empty; `gpl_version` replaces the first occurrence of the marker. -/
def derive_sdk_path_parts (version : String) : Option SdkParts :=
  let parts := py_split '_' version
  if parts.length < 3 then none
  else
    let product_code := parts.headD ""
    let unified_full := parts.getLastD ""
    let comps := (py_split '.' unified_full).foldl
      (fun acc comp =>
        let stripped := py_lstrip_zeros comp
        if stripped ≠ "" then acc ++ [stripped] else acc) []
    let unified_short := if comps.isEmpty then unified_full else py_join "." comps
    let gpl_version := replace_first version "_R_" "_R_GPL_"
    some { product_code, unified_full, unified_short, gpl_version }

/-- Model of `get_minor_from_unified_short` (src lines 371-374). -/
def get_minor_from_unified_short (unified_short : String) : String :=
  let parts := py_split '.' unified_short
  if parts.length ≥ 2 then py_join "." (parts.take 2) else parts.headD ""

/-- Generic accumulation lemma: the `comps` loop of
`derive_sdk_path_parts` is a `filterMap`. -/
theorem foldl_skip_filterMap {α β : Type} (q : α → Prop) [DecidablePred q]
    (g : α → β) (l : List α) (acc : List β) :
    l.foldl (fun acc x => if q x then acc else acc ++ [g x]) acc
      = acc ++ l.filterMap (fun x => if q x then none else some (g x)) := by
  induction l generalizing acc with
  | nil => simp
  | cons x xs ih =>
    simp only [List.foldl_cons, List.filterMap_cons]
    by_cases h : q x
    · simp [h, ih]
    · simp [h, ih]

/-- C2 counterexample: the claim predicts that an all-zero middle
component falls back to its padded form, so that `07.00.18` yields
`7.00.18`; the code instead drops the component entirely and yields
`7.18`. -/
theorem C2_zero_component_counterexample :
    (derive_sdk_path_parts "RUT9M_R_07.00.18").map SdkParts.unified_short
        = some "7.18"
      ∧ (some "7.18" : Option String) ≠ some "7.00.18" := by
  constructor
  · decide
  · decide

/-- C2 (amended): `unified_short` strips leading zeros from each dot
component of `unified_full` and drops (rather than pads back) every
component that strips to empty; only when every component strips to empty
does `unified_short` fall back to the whole `unified_full`. -/
theorem C2_unified_short_amended (v : String)
    (h : 3 ≤ (py_split '_' v).length) :
    ((∀ c ∈ py_split '.' ((py_split '_' v).getLastD ""), py_lstrip_zeros c = "") →
        (derive_sdk_path_parts v).map SdkParts.unified_short
          = some ((py_split '_' v).getLastD ""))
    ∧ ((∃ c ∈ py_split '.' ((py_split '_' v).getLastD ""), py_lstrip_zeros c ≠ "") →
        (derive_sdk_path_parts v).map SdkParts.unified_short
          = some (py_join "."
              ((py_split '.' ((py_split '_' v).getLastD "")).filterMap
                (fun c =>
                  if py_lstrip_zeros c = "" then none
                  else some (py_lstrip_zeros c))))) := by
  have hnl : ¬ (py_split '_' v).length < 3 := Nat.not_lt.mpr h
  have hfold := foldl_skip_filterMap
    (fun c => py_lstrip_zeros c = "") py_lstrip_zeros
    (py_split '.' ((py_split '_' v).getLastD "")) []
  simp only [List.nil_append] at hfold
  constructor
  · intro hall
    have hnil : (py_split '.' ((py_split '_' v).getLastD "")).filterMap
        (fun c => if py_lstrip_zeros c = "" then none else some (py_lstrip_zeros c))
          = [] := by
      rw [List.filterMap_eq_nil_iff]
      intro a ha
      simp [hall a ha]
    simp only [derive_sdk_path_parts, hnl, if_false, Option.map_some', ne_eq, ite_not]
    rw [hfold, hnil]
    simp
  · intro ⟨c, hc, hcs⟩
    have hne : (py_split '.' ((py_split '_' v).getLastD "")).filterMap
        (fun c => if py_lstrip_zeros c = "" then none else some (py_lstrip_zeros c))
          ≠ [] := by
      intro hcontra
      rw [List.filterMap_eq_nil_iff] at hcontra
      have := hcontra c hc
      simp [hcs] at this
    simp only [derive_sdk_path_parts, hnl, if_false, Option.map_some', ne_eq, ite_not]
    rw [hfold]
    simp only [List.isEmpty_iff, List.filterMap_eq_nil_iff, Option.some.injEq]
    have hcond : ¬ (∀ a ∈ py_split '.' ((py_split '_' v).getLastD ""),
        (if py_lstrip_zeros a = "" then none else some (py_lstrip_zeros a))
          = (none : Option String)) := by
      intro hall2
      have := hall2 c hc
      simp [hcs] at this
    rw [if_neg hcond]

/-- C2 witness: the amended statement applied to the concrete version
string `RUT9M_R_00.07.06.20`, whose trailing segment has a component
(`00`) that strips to empty while others do not. -/
theorem C2_unified_short_amended_witness :
    (derive_sdk_path_parts "RUT9M_R_00.07.06.20").map SdkParts.unified_short
      = some (py_join "."
          ((py_split '.' (((py_split '_' "RUT9M_R_00.07.06.20")).getLastD "")).filterMap
            (fun c =>
              if py_lstrip_zeros c = "" then none
              else some (py_lstrip_zeros c)))) :=
  (C2_unified_short_amended "RUT9M_R_00.07.06.20" (by decide)).2 (by decide)

/-- C8: the worked example from the spec: `RUT9M_R_00.07.06.20` yields
product code `RUT9M`, `unified_full` `00.07.06.20`, `unified_short`
`7.6.20`, archive version `RUT9M_R_GPL_00.07.06.20` and minor line
`7.6`. -/
theorem C8_version_descriptor_example :
    derive_sdk_path_parts "RUT9M_R_00.07.06.20"
        = some { product_code := "RUT9M", unified_full := "00.07.06.20",
                 unified_short := "7.6.20",
                 gpl_version := "RUT9M_R_GPL_00.07.06.20" }
      ∧ (derive_sdk_path_parts "RUT9M_R_00.07.06.20").map
          (fun i => get_minor_from_unified_short i.unified_short)
        = some "7.6" := by
  constructor
  · decide
  · decide

/-! ## Changelog tree rendering (`tree_to_markdown`, lines 310-332) -/

/-- A changelog tree node: text plus an ordered list of children
(the `{ "text": ..., "children": [...] }` dictionaries of the source). -/
inductive TNode : Type where
  | node : String → List TNode → TNode

/-- Model of the `'#' * level` heading marker. -/
def heading_hashes (level : Nat) : String :=
  String.mk (List.replicate level '#')

/-- Model of the inner `walk(node_list, depth)` of `tree_to_markdown`
(src lines 314-330): produces the list of emitted lines.  A node whose
stripped text is empty emits nothing and its children are walked at
`depth + 1`; a node with text and children emits a heading at level
`heading_level_base + depth` capped at 6 and walks its children at
`depth + 1`; a childless node with text emits a bullet. -/
def walk_tree (base : Nat) : List TNode → Nat → List String
  | [], _ => []
  | TNode.node text children :: rest, depth =>
    let t := py_strip text
    (if t = "" then
       (if children.isEmpty then [] else walk_tree base children (depth + 1))
     else if children.isEmpty then ["* " ++ t]
     else
       (heading_hashes (if base + depth > 6 then 6 else base + depth) ++ " " ++ t)
         :: walk_tree base children (depth + 1))
    ++ walk_tree base rest depth

/-- Model of `tree_to_markdown` (src lines 310-332): `"\n".join(lines)`. -/
def tree_to_markdown (nodes : List TNode) (heading_level_base : Nat) : String :=
  py_join "\n" (walk_tree heading_level_base nodes 0)

/-- C3 counterexample: for the forest
`[{text: "", children: [{text: "A", children: [{text: "B"}]}]}]` with
base level 3, the claim (children of an empty node promoted to the empty
node's own depth) predicts the heading `### A`; the code renders
`#### A` because the children of the empty node are walked at
`depth + 1`, not at the empty node's depth. -/
theorem C3_empty_node_depth_counterexample :
    tree_to_markdown
        [TNode.node "" [TNode.node "A" [TNode.node "B" []]]] 3
      = "#### A" ++ "\n" ++ "* B"
    ∧ ("#### A" ++ "\n" ++ "* B" : String) ≠ "### A" ++ "\n" ++ "* B" := by
  constructor
  · simp only [tree_to_markdown, walk_tree]
    decide
  · decide

/-- C3 (amended): `tree_to_markdown` renders depth-first; a node with
empty (stripped) text produces no output line and its children are
visited at `depth + 1` — one level deeper than the empty node, exactly
as if the node had text, not promoted to the empty node's own depth; a
node with non-empty text and children becomes a heading at level
`base + depth` clamped to the maximum heading level 6; a node with
non-empty text and no children becomes a bullet line. -/
theorem C3_walk_rendering_amended (base : Nat) (text : String)
    (children rest : List TNode) (depth : Nat) :
    (py_strip text = "" →
        walk_tree base (TNode.node text children :: rest) depth
          = walk_tree base children (depth + 1) ++ walk_tree base rest depth)
    ∧ (py_strip text ≠ "" → children = [] →
        walk_tree base (TNode.node text children :: rest) depth
          = ("* " ++ py_strip text) :: walk_tree base rest depth)
    ∧ (py_strip text ≠ "" → children ≠ [] →
        walk_tree base (TNode.node text children :: rest) depth
          = (heading_hashes (min (base + depth) 6) ++ " " ++ py_strip text)
              :: (walk_tree base children (depth + 1)
                    ++ walk_tree base rest depth)) := by
  have hmin : (if base + depth > 6 then 6 else base + depth)
      = min (base + depth) 6 := by
    rcases Nat.lt_or_ge 6 (base + depth) with hlt | hge
    · rw [if_pos hlt, Nat.min_eq_right (Nat.le_of_lt hlt)]
    · rw [if_neg (Nat.not_lt.mpr hge), Nat.min_eq_left hge]
  refine ⟨?_, ?_, ?_⟩
  · intro hempty
    simp only [walk_tree, hempty, if_pos rfl]
    rcases children with _ | ⟨c, cs⟩
    · simp [walk_tree]
    · simp [List.isEmpty]
  · intro hne hnil
    subst hnil
    simp [walk_tree, hne]
  · intro hne hnonnil
    have : children.isEmpty = false := by
      rcases children with _ | _
      · simp at hnonnil
      · simp [List.isEmpty]
    simp only [walk_tree, this, hmin]
    simp [hne]

/-- C3 witness: the amended statement applied at a concrete node with
text and children at depth 2 under base 3. -/
theorem C3_walk_rendering_amended_witness :
    walk_tree 3 [TNode.node "A" [TNode.node "B" []]] 2
      = (heading_hashes (min (3 + 2) 6) ++ " " ++ py_strip "A")
          :: (walk_tree 3 [TNode.node "B" []] 3 ++ walk_tree 3 [] 2) :=
  (C3_walk_rendering_amended 3 "A" [TNode.node "B" []] [] 2).2.2
    (by decide) (List.cons_ne_nil _ _)

/-! ## A stable sort, modelling Python's `list.sort(key=...)`

Python's `list.sort` is stable and ascending by key.  Insertion sort
where each element is placed after all already-placed elements whose key
is `≤` its own produces exactly that order, so it is a faithful model of
`list.sort(key=...)` for a total, transitive key comparison. -/

/-- Insert `x` after every element `y` with `le y x`. -/
def insertSorted {α : Type} (le : α → α → Bool) (x : α) : List α → List α
  | [] => [x]
  | y :: ys => if le y x then y :: insertSorted le x ys else x :: y :: ys

/-- Stable ascending sort (model of Python `list.sort(key=...)`). -/
def stableSort {α : Type} (le : α → α → Bool) (l : List α) : List α :=
  l.foldl (fun acc x => insertSorted le x acc) []

theorem mem_insertSorted {α : Type} (le : α → α → Bool) (x z : α)
    (l : List α) : z ∈ insertSorted le x l ↔ z = x ∨ z ∈ l := by
  induction l with
  | nil => simp [insertSorted]
  | cons y ys ih =>
    simp only [insertSorted]
    split
    · simp only [List.mem_cons, ih]
      tauto
    · simp [List.mem_cons]

theorem mem_stableSort {α : Type} (le : α → α → Bool) (z : α) (l : List α) :
    z ∈ stableSort le l ↔ z ∈ l := by
  suffices h : ∀ acc : List α,
      (z ∈ l.foldl (fun acc x => insertSorted le x acc) acc ↔ z ∈ acc ∨ z ∈ l) by
    have := h []
    simpa [stableSort] using this
  induction l with
  | nil => intro acc; simp
  | cons y ys ih =>
    intro acc
    simp only [List.foldl_cons, ih, mem_insertSorted, List.mem_cons]
    tauto

theorem pairwise_insertSorted {α K : Type} (k : α → K) (kle : K → K → Bool)
    (htrans : ∀ a b c, kle a b = true → kle b c = true → kle a c = true)
    (htot : ∀ a b, kle a b = true ∨ kle b a = true)
    (x : α) (l : List α)
    (hl : l.Pairwise (fun a b => kle (k a) (k b) = true)) :
    (insertSorted (fun a b => kle (k a) (k b)) x l).Pairwise
      (fun a b => kle (k a) (k b) = true) := by
  induction l with
  | nil => simp [insertSorted]
  | cons y ys ih =>
    rcases List.pairwise_cons.mp hl with ⟨hy, hys⟩
    simp only [insertSorted]
    split
    · rename_i hle
      refine List.pairwise_cons.mpr ⟨?_, ih hys⟩
      intro z hz
      rcases (mem_insertSorted _ x z ys).mp hz with rfl | hzys
      · exact hle
      · exact hy z hzys
    · rename_i hnle
      have hxy : kle (k x) (k y) = true := by
        rcases htot (k x) (k y) with h | h
        · exact h
        · exact absurd h (by simpa using hnle)
      refine List.pairwise_cons.mpr ⟨?_, hl⟩
      intro z hz
      rcases List.mem_cons.mp hz with rfl | hzys
      · exact hxy
      · exact htrans _ _ _ hxy (hy z hzys)

theorem pairwise_stableSort {α K : Type} (k : α → K) (kle : K → K → Bool)
    (htrans : ∀ a b c, kle a b = true → kle b c = true → kle a c = true)
    (htot : ∀ a b, kle a b = true ∨ kle b a = true) (l : List α) :
    (stableSort (fun a b => kle (k a) (k b)) l).Pairwise
      (fun a b => kle (k a) (k b) = true) := by
  suffices h : ∀ acc : List α,
      acc.Pairwise (fun a b => kle (k a) (k b) = true) →
      (l.foldl (fun acc x => insertSorted (fun a b => kle (k a) (k b)) x acc)
          acc).Pairwise (fun a b => kle (k a) (k b) = true) by
    exact h [] (by simp)
  induction l with
  | nil => intro acc hacc; simpa using hacc
  | cons y ys ih =>
    intro acc hacc
    exact ih _ (pairwise_insertSorted k kle htrans htot y acc hacc)

theorem filter_insertSorted {α K : Type} [DecidableEq K]
    (k : α → K) (kle : K → K → Bool)
    (htot : ∀ a b, kle a b = true ∨ kle b a = true)
    (c : K) (x : α) (l : List α)
    (hl : l.Pairwise (fun a b => kle (k a) (k b) = true)) :
    (insertSorted (fun a b => kle (k a) (k b)) x l).filter
        (fun a => decide (k a = c))
      = l.filter (fun a => decide (k a = c))
          ++ (if k x = c then [x] else []) := by
  have hrefl : ∀ a, kle a a = true := by
    intro a
    rcases htot a a with h | h <;> exact h
  induction l with
  | nil => by_cases h : k x = c <;> simp [insertSorted, h]
  | cons y ys ih =>
    rcases List.pairwise_cons.mp hl with ⟨hy, hys⟩
    simp only [insertSorted]
    split
    · rename_i hle
      by_cases hyc : k y = c <;>
        simp [List.filter_cons, hyc, ih hys]
    · rename_i hnle
      have hnle' : ¬ kle (k y) (k x) = true := by simpa using hnle
      by_cases hxc : k x = c
      · have hfil : (y :: ys).filter (fun a => decide (k a = c)) = [] := by
          rw [List.filter_eq_nil_iff]
          intro z hzmem
          simp only [decide_eq_true_eq]
          intro hzc
          have hzx : k z = k x := by rw [hzc, hxc]
          rcases List.mem_cons.mp hzmem with rfl | hzys
          · exact hnle' (by rw [← hzx]; exact hrefl (k z))
          · exact hnle' (by rw [← hzx]; exact hy z hzys)
        simp [List.filter_cons, hxc, hfil]
      · simp [List.filter_cons, hxc]

/-- Stability of `stableSort`: the elements having any fixed key appear
in the output exactly as they appear in the input. -/
theorem filter_stableSort {α K : Type} [DecidableEq K]
    (k : α → K) (kle : K → K → Bool)
    (htrans : ∀ a b c, kle a b = true → kle b c = true → kle a c = true)
    (htot : ∀ a b, kle a b = true ∨ kle b a = true)
    (c : K) (l : List α) :
    (stableSort (fun a b => kle (k a) (k b)) l).filter
        (fun a => decide (k a = c))
      = l.filter (fun a => decide (k a = c)) := by
  suffices h : ∀ acc : List α,
      acc.Pairwise (fun a b => kle (k a) (k b) = true) →
      (l.foldl (fun acc x => insertSorted (fun a b => kle (k a) (k b)) x acc)
            acc).filter (fun a => decide (k a = c))
        = acc.filter (fun a => decide (k a = c))
            ++ l.filter (fun a => decide (k a = c)) by
    simpa [stableSort] using h [] (by simp)
  induction l with
  | nil => intro acc hacc; simp
  | cons y ys ih =>
    intro acc hacc
    simp only [List.foldl_cons]
    rw [ih _ (pairwise_insertSorted k kle htrans htot y acc hacc),
      filter_insertSorted k kle htot c y acc hacc, List.filter_cons]
    by_cases hyc : k y = c <;> simp [hyc]

/-- In a list sorted by key, every element's key is `≤` the last
element's key. -/
theorem getLast_key_max {α K : Type} (k : α → K) (kle : K → K → Bool)
    (htot : ∀ a b, kle a b = true ∨ kle b a = true)
    (l : List α) (hne : l ≠ [])
    (hl : l.Pairwise (fun a b => kle (k a) (k b) = true)) :
    ∀ z ∈ l, kle (k z) (k (l.getLast hne)) = true := by
  have hrefl : ∀ a, kle a a = true := by
    intro a
    rcases htot a a with h | h <;> exact h
  induction l with
  | nil => cases hne rfl
  | cons y ys ih =>
    intro z hz
    rcases List.pairwise_cons.mp hl with ⟨hy, hys⟩
    match ys, hz with
    | [], hz =>
      rcases List.mem_cons.mp hz with rfl | hmem
      · simp [List.getLast, hrefl]
      · cases hmem
    | b :: t, hz =>
      rw [List.getLast_cons (by simp)]
      rcases List.mem_cons.mp hz with rfl | hmem
      · exact hy _ (List.getLast_mem (by simp))
      · exact ih (by simp) hys z hmem

/-! ## Release dates (`sorted_firmwares_by_date`, lines 386-404)

`datetime.strptime(ds, "%Y.%m.%d")` is modelled after CPython's
`_strptime` regular expressions: `%Y` matches exactly four digits, `%m`
matches `1[0-2]|0[1-9]|[1-9]`, `%d` matches `3[01]|[12]\d|0[1-9]|[1-9]`,
the format's literal dots must match, and the whole string must be
consumed; the `datetime` constructor then validates the year range
(`MINYEAR = 1`) and the day against the month length.  Any failure
raises `ValueError`, which the source catches and replaces by
`datetime.min`, i.e. year 1, month 1, day 1. -/

/-- A calendar date `(year, month, day)`; `datetime` values compare
lexicographically and all time components here are zero. -/
abbrev Date := Nat × Nat × Nat

/-- `datetime.min`'s date: year 1, January 1. -/
def date_min : Date := (1, 1, 1)

/-- The `datetime` order on dates: lexicographic on (year, month, day). -/
def dateLe (a b : Date) : Bool :=
  decide (a.1 < b.1 ∨ (a.1 = b.1
    ∧ (a.2.1 < b.2.1 ∨ (a.2.1 = b.2.1 ∧ a.2.2 ≤ b.2.2))))

theorem dateLe_trans : ∀ a b c : Date,
    dateLe a b = true → dateLe b c = true → dateLe a c = true := by
  intro a b c
  simp only [dateLe, decide_eq_true_eq]
  omega

theorem dateLe_total : ∀ a b : Date, dateLe a b = true ∨ dateLe b a = true := by
  intro a b
  simp only [dateLe, decide_eq_true_eq]
  omega

/-- Gregorian leap year, as `datetime` uses it. -/
def is_leap (y : Nat) : Bool :=
  y % 4 = 0 && (y % 100 ≠ 0 || y % 400 = 0)

/-- Days in a month, as validated by the `datetime` constructor. -/
def days_in_month (y m : Nat) : Nat :=
  if m = 2 then (if is_leap y then 29 else 28)
  else if m = 4 ∨ m = 6 ∨ m = 9 ∨ m = 11 then 30
  else 31

/-- A one-or-two digit numeric field whose value lies in `[lo, hi]`
(characterizes the `%m` and `%d` regular expression classes). -/
def short_num_in (lo hi : Nat) (s : String) : Bool :=
  allDigits s.data && decide (1 ≤ s.data.length) && decide (s.data.length ≤ 2)
    && decide (lo ≤ digitsToNat s.data) && decide (digitsToNat s.data ≤ hi)

/-- Model of `datetime.strptime(s, "%Y.%m.%d")` followed by `datetime`
construction; `none` models the `ValueError` paths. -/
def strptime_ymd (s : String) : Option Date :=
  match py_split '.' s with
  | [ys, ms, ds] =>
    if allDigits ys.data && decide (ys.data.length = 4)
        && short_num_in 1 12 ms && short_num_in 1 31 ds then
      let y := digitsToNat ys.data
      let m := digitsToNat ms.data
      let d := digitsToNat ds.data
      if 1 ≤ y ∧ d ≤ days_in_month y m then some (y, m, d) else none
    else none
  | _ => none

/-- The sort key of one firmware entry (src lines 393-400):
`datetime.strptime` on the stripped date, falling back to
`datetime.min` for empty or unparsable dates. -/
def release_date_key (raw : String) : Date :=
  let ds := py_strip raw
  if ds = "" then date_min
  else
    match strptime_ymd ds with
    | some d => d
    | none => date_min

/-- One top-level entry of an extracted SDK archive: its name, whether
it is a directory, and (for a directory) the files it contains, as
(path, content) pairs. -/
structure TarEntry where
  name : String
  isDir : Bool
  files : List (String × String)
  deriving DecidableEq, Repr

/-- One parsed firmware entry of the `firmwares` mapping produced by
`FirmwareTreeParser` (heading, version, release_date, warning, tree),
together with its environment for the synthesizer: `archive` is `some`
of the archive's top-level entries when the SDK file
`<gpl_version>.tar.gz` exists locally, `none` when it does not
(Git LFS pointer resolution is not modelled; archives are taken as real
content). -/
structure Release where
  version : String
  heading : String
  release_date : String
  warning : String
  tree : List TNode
  archive : Option (List TarEntry)

/-- Model of `sorted_firmwares_by_date` (src lines 386-404): build
`(key, entry)` items in mapping (insertion) order, then stable-sort
ascending by key alone. -/
def sorted_firmwares_by_date (firmwares : List Release) :
    List (Date × Release) :=
  stableSort (fun a b => dateLe a.1 b.1)
    (firmwares.map (fun fw => (release_date_key fw.release_date, fw)))

/-- Keys produced by `release_date_key` are at least `date_min`. -/
theorem date_min_le_release_date_key (raw : String) :
    dateLe date_min (release_date_key raw) = true := by
  have hparse : ∀ s y m d, strptime_ymd s = some (y, m, d) →
      1 ≤ y ∧ 1 ≤ m ∧ 1 ≤ d := by
    intro s y m d h
    unfold strptime_ymd at h
    rcases hsplit : py_split '.' s with _ | ⟨ys, _ | ⟨ms, _ | ⟨ds, _ | _⟩⟩⟩ <;>
      rw [hsplit] at h <;> simp at h
    rcases h with ⟨hpat, hval⟩
    rcases hval with ⟨hrange, hy, hm, hd⟩
    simp only [short_num_in, Bool.and_eq_true, decide_eq_true_eq] at hpat
    refine ⟨by omega, ?_, ?_⟩
    · omega
    · omega
  unfold release_date_key
  by_cases h : py_strip raw = ""
  · simp [h, dateLe, date_min]
  · simp only [h, if_false]
    rcases hs : strptime_ymd (py_strip raw) with _ | ⟨⟨y, m, d⟩⟩
    · simp [hs, dateLe, date_min]
    · have := hparse _ y m d hs
      simp only [hs, dateLe, date_min, decide_eq_true_eq]
      omega

/-- A minimal release record used for concrete instances. -/
def demo_release (v date : String) : Release :=
  { version := v, heading := "", release_date := date, warning := "",
    tree := [], archive := none }

/-- C7 counterexample: `0001.01.01` is parsable and parses exactly to
`datetime.min`'s date, so the unparsable `TBD` (same fallback key) only
ties with it, and since the later-inserted release keeps its later
position on a tie, a release with an unparsable date does NOT sort
before every release with a parsable date. -/
theorem C7_min_date_tie_counterexample :
    strptime_ymd (py_strip "0001.01.01") = some (1, 1, 1)
    ∧ strptime_ymd (py_strip "TBD") = none
    ∧ (sorted_firmwares_by_date
          [demo_release "A_R_1" "0001.01.01", demo_release "B_R_1" "TBD"]).map
        (fun p => p.2.version)
      = ["A_R_1", "B_R_1"] := by
  refine ⟨by decide, by decide, ?_⟩
  decide

/-- C7 (amended): `sorted_firmwares_by_date` returns the releases in
ascending order of parsed release date; a missing or unparsable date is
treated as the earliest representable date (`datetime.min`, year 1) and
therefore sorts no later than any parsable date — strictly before every
date after `0001.01.01`, while a date parsing exactly to the minimum
ties and insertion order decides; releases with equal keys keep their
insertion (document) order. -/
theorem C7_date_sort_amended (firmwares : List Release) :
    (sorted_firmwares_by_date firmwares).Pairwise
        (fun a b => dateLe a.1 b.1 = true)
    ∧ (∀ c : Date,
        (sorted_firmwares_by_date firmwares).filter (fun a => decide (a.1 = c))
          = (firmwares.map
              (fun fw => (release_date_key fw.release_date, fw))).filter
                (fun a => decide (a.1 = c)))
    ∧ (∀ fw ∈ firmwares,
        strptime_ymd (py_strip fw.release_date) = none →
          release_date_key fw.release_date = date_min)
    ∧ (∀ p ∈ sorted_firmwares_by_date firmwares,
        dateLe date_min p.1 = true) := by
  refine ⟨?_, ?_, ?_, ?_⟩
  · exact pairwise_stableSort (fun a : Date × Release => a.1) dateLe
      dateLe_trans dateLe_total _
  · intro c
    exact filter_stableSort (fun a : Date × Release => a.1) dateLe
      dateLe_trans dateLe_total c _
  · intro fw _ hn
    unfold release_date_key
    by_cases h : py_strip fw.release_date = ""
    · simp [h]
    · simp [h, hn]
  · intro p hp
    have hmem := (mem_stableSort _ p _).mp hp
    rcases List.mem_map.mp hmem with ⟨fw, _, hfw⟩
    rw [← hfw]
    exact date_min_le_release_date_key fw.release_date

/-- C7 witness: the amended statement applied to a singleton list with
the unparsable date `TBD`. -/
theorem C7_date_sort_amended_witness :
    release_date_key (demo_release "B_R_1" "TBD").release_date = date_min :=
  (C7_date_sort_amended [demo_release "B_R_1" "TBD"]).2.2.1
    (demo_release "B_R_1" "TBD") (List.mem_singleton.mpr rfl) (by decide)

/-! ## The git repository model (src lines 569-806)

The synthesizer only uses git through a narrow set of operations; they
are modelled as explicit state passing over `RepoState`.  A branch (and
a tag) maps its name to the commit history it points at, newest commit
first; histories are shared when a branch is created from another, and
`git checkout --orphan` leaves the new branch unborn (no ref) until its
first commit.  Only local branches are modelled (no `origin/...`
remotes, which `branch_exists` would also accept, and no submodules or
LFS stubs).  `ncommits` counts every commit ever created, so "zero new
commits" is `ncommits` staying equal. -/

/-- One commit: the forced author/committer date (src lines 664-666)
and the snapshot of the tracked files as (path, content) pairs. -/
structure Commit where
  date : Date
  files : List (String × String)
  deriving DecidableEq, Repr

/-- The modelled repository: branches/tags as name-to-history maps, the
checked-out branch name, the working tree, and the commit counter. -/
structure RepoState where
  branches : List (String × List Commit)
  tags : List (String × List Commit)
  current : String
  worktree : List (String × String)
  ncommits : Nat
  deriving DecidableEq, Repr

/-- First association for a name in an association list. -/
def assoc_find {β : Type} (n : String) : List (String × β) → Option β
  | [] => none
  | (m, h) :: rest => if m = n then some h else assoc_find n rest

/-- The commit history a branch points at; an absent (unborn) branch has
no commits. -/
def branch_history (s : RepoState) (n : String) : List Commit :=
  (assoc_find n s.branches).getD []

/-- The tracked contents at a branch tip (what `git status --porcelain`
compares the staged working tree against); empty for an unborn branch. -/
def tip_files (s : RepoState) (n : String) : List (String × String) :=
  match branch_history s n with
  | [] => []
  | c :: _ => c.files

/-- Model of `branch_exists` (src lines 580-600), local branches only. -/
def branch_exists (s : RepoState) (branch : String) : Bool :=
  decide (branch ∈ s.branches.map Prod.fst)

/-- Model of `repo_has_tag` (src lines 569-577). -/
def repo_has_tag (s : RepoState) (tag : String) : Bool :=
  decide (tag ∈ s.tags.map Prod.fst)

/-- Model of `checkout_branch` (src line 607): move HEAD and restore the
working tree to the branch tip. -/
def checkout_branch (s : RepoState) (branch : String) : RepoState :=
  { s with current := branch, worktree := tip_files s branch }

/-- Model of `checkout_orphan_branch` (src line 603): HEAD moves to an
unborn branch (no ref is created until the first commit); the working
tree is kept. -/
def checkout_orphan_branch (s : RepoState) (branch : String) : RepoState :=
  { s with current := branch }

/-- Model of `clear_repo_worktree` (src lines 611-619): delete
everything except the `.git` metadata. -/
def clear_repo_worktree (s : RepoState) : RepoState :=
  { s with worktree := [] }

/-- Model of `extract_sdk_into_repo` (src lines 622-647): the archive
must have exactly one top-level entry and it must be a directory; only
then are that directory's contents moved into the repository root.
Both validation checks happen before any file is moved. -/
def extract_sdk_into_repo (s : RepoState) (entries : List TarEntry) :
    Bool × RepoState :=
  match entries with
  | [e] =>
    if e.isDir then (true, { s with worktree := s.worktree ++ e.files })
    else (false, s)
  | _ => (false, s)

/-- Point a branch ref at a history, creating the ref if absent (the
effect of `git commit` on the current branch and of `git branch -f`). -/
def set_branch (bs : List (String × List Commit)) (n : String)
    (h : List Commit) : List (String × List Commit) :=
  if n ∈ bs.map Prod.fst then bs.map (fun p => if p.1 = n then (n, h) else p)
  else bs ++ [(n, h)]

/-- Model of `commit_and_tag_repo` (src lines 650-672): stage all; if
nothing changed relative to the branch tip, return `false` without
committing or tagging; otherwise commit the working tree with the
release date and tag the new commit with `gpl_version`. -/
def commit_and_tag_repo (s : RepoState) (gpl_version : String)
    (release_date : Date) : Bool × RepoState :=
  if s.worktree = tip_files s s.current then (false, s)
  else
    let hist := { date := release_date, files := s.worktree }
      :: branch_history s s.current
    (true, { s with
      branches := set_branch s.branches s.current hist,
      tags := s.tags ++ [(gpl_version, hist)],
      ncommits := s.ncommits + 1 })

/-- Model of the regular expression `^v([0-9]+)\.([0-9]+)$`
(src line 740): the two captured numbers, or `none` on no match. -/
def parse_minor_branch (name : String) : Option (Nat × Nat) :=
  match name.data with
  | 'v' :: rest =>
    match splitChar '.' rest with
    | [a, b] =>
      if a ≠ [] && b ≠ [] && allDigits a && allDigits b then
        some (digitsToNat a, digitsToNat b)
      else none
    | _ => none
  | _ => none

/-- Python tuple order on the `(major, minor)` sort key. -/
def minor_key_le (a b : Nat × Nat) : Bool :=
  decide (a.1 < b.1 ∨ (a.1 = b.1 ∧ a.2 ≤ b.2))

theorem minor_key_le_trans : ∀ a b c : Nat × Nat,
    minor_key_le a b = true → minor_key_le b c = true →
      minor_key_le a c = true := by
  intro a b c
  simp only [minor_key_le, decide_eq_true_eq]
  omega

theorem minor_key_le_total : ∀ a b : Nat × Nat,
    minor_key_le a b = true ∨ minor_key_le b a = true := by
  intro a b
  simp only [minor_key_le, decide_eq_true_eq]
  omega

/-- The `(major, minor)` key of a minor-line branch name (only applied
to names the pattern accepts). -/
def minor_branch_key (name : String) : Nat × Nat :=
  (parse_minor_branch name).getD (0, 0)

/-- The minor-line branch names of the repository (pattern-matching
local branch names, in listing order). -/
def minor_branch_names (s : RepoState) : List String :=
  (s.branches.map Prod.fst).filter (fun n => (parse_minor_branch n).isSome)

/-- Model of `get_sorted_minor_branches` (src lines 742-762): filter
branch names by the minor-line pattern and sort by `(major, minor)` as
integer pairs. -/
def get_sorted_minor_branches (s : RepoState) : List String :=
  stableSort
    (fun a b => minor_key_le (minor_branch_key a) (minor_branch_key b))
    (minor_branch_names s)

/-- Model of `create_or_checkout_minor_branch` (src lines 782-806):
checkout `v<minor>` if it exists; otherwise base it on the greatest
existing minor-line branch, or start it as an orphan when none exist. -/
def create_or_checkout_minor_branch (s : RepoState) (minor : String) :
    RepoState :=
  let branch_name := "v" ++ minor
  if branch_exists s branch_name then
    if s.current ≠ branch_name then checkout_branch s branch_name else s
  else
    match (get_sorted_minor_branches s).getLast? with
    | some base =>
      let s1 := checkout_branch s base
      { s1 with
        branches := s1.branches ++ [(branch_name, branch_history s1 base)],
        current := branch_name }
    | none => checkout_orphan_branch s branch_name

/-! ## The per-release import step and the import loop
(`import_sdks_into_git`, src lines 812-867) -/

/-- One iteration of the `for` loop of `import_sdks_into_git`
(src lines 814-859), on one `(release_date, version, data)` item of
`sorted_firmwares_by_date`: skip on a non-empty warning, an unparsable
version string, an empty `unified_short`, a missing SDK file, or an
existing tag; otherwise select/create the minor branch, clear the
working tree, extract the archive (skipping on an invalid layout) and
commit and tag. -/
def import_release_step (s : RepoState) (item : Date × Release) :
    RepoState :=
  if py_strip item.2.warning ≠ "" then s
  else
    match derive_sdk_path_parts item.2.version with
    | none => s
    | some info =>
      if info.unified_short = "" then s
      else
        match item.2.archive with
        | none => s
        | some entries =>
          if repo_has_tag s info.gpl_version then s
          else
            let minor := get_minor_from_unified_short info.unified_short
            let s1 := create_or_checkout_minor_branch s minor
            let s2 := clear_repo_worktree s1
            match extract_sdk_into_repo s2 entries with
            | (false, s3) => s3
            | (true, s3) => (commit_and_tag_repo s3 info.gpl_version item.1).2

/-- The whole import loop of `import_sdks_into_git` over the
date-sorted releases. -/
def import_sdks_loop (s : RepoState) (items : List (Date × Release)) :
    RepoState :=
  items.foldl import_release_step s

/-- Model of `reset_branch_to_start_point` (src lines 765-767):
`git branch -f branch start_point`. -/
def reset_branch_to_start_point (s : RepoState) (branch : String)
    (hist : List Commit) : RepoState :=
  { s with branches := set_branch s.branches branch hist }

/-- Model of `update_branch_head_to_version` (src lines 770-779):
derive the descriptor (raising on a malformed version), assert the tag
exists, and force the branch to the tagged commit. -/
def update_branch_head_to_version (s : RepoState) (branch version : String) :
    Except String RepoState :=
  match derive_sdk_path_parts version with
  | none => Except.error "malformed firmware version string"
  | some info =>
    match assoc_find info.gpl_version s.tags with
    | none => Except.error "assertion failed: tag does not exist"
    | some hist => Except.ok (reset_branch_to_start_point s branch hist)

/-- Model of `import_sdks_into_git` (src lines 812-867): run the import
loop over the date-sorted releases, then force the `master` and
`stable` pointer branches to the tags of the designated latest/stable
versions (asserting both are present and both tags exist). -/
def import_sdks_into_git (firmwares : List Release)
    (stable_fw latest_fw : Option String) (s : RepoState) :
    Except String RepoState :=
  let s1 := import_sdks_loop s (sorted_firmwares_by_date firmwares)
  match latest_fw, stable_fw with
  | some latest, some stable =>
    match update_branch_head_to_version s1 "master" latest with
    | Except.error e => Except.error e
    | Except.ok s2 => update_branch_head_to_version s2 "stable" stable
  | _, _ => Except.error "assertion failed: latest and stable required"

/-- Valid archive layout: exactly one top-level entry, a directory
(the success condition of `extract_sdk_into_repo`). -/
def archive_layout_ok : List TarEntry → Bool
  | [e] => e.isDir
  | _ => false

theorem extract_sdk_into_repo_fail (s : RepoState) (entries : List TarEntry)
    (h : archive_layout_ok entries = false) :
    extract_sdk_into_repo s entries = (false, s) := by
  match entries with
  | [] => rfl
  | [e] =>
    simp only [archive_layout_ok] at h
    simp [extract_sdk_into_repo, h]
  | _ :: _ :: _ => rfl

theorem create_or_checkout_tags_ncommits (s : RepoState) (minor : String) :
    (create_or_checkout_minor_branch s minor).tags = s.tags
    ∧ (create_or_checkout_minor_branch s minor).ncommits = s.ncommits := by
  simp only [create_or_checkout_minor_branch, checkout_branch,
    checkout_orphan_branch]
  split
  · split <;> simp
  · split <;> simp

theorem assoc_find_eq_none {β : Type} (n : String) (l : List (String × β))
    (h : n ∉ l.map Prod.fst) : assoc_find n l = none := by
  induction l with
  | nil => rfl
  | cons p rest ih =>
    simp only [List.map_cons, List.mem_cons] at h
    push_neg at h
    rcases p with ⟨m, b⟩
    simp only [assoc_find]
    rw [if_neg (fun hmn => h.1 hmn.symm)]
    exact ih h.2

/-- C1 counterexample state: a repository whose `v1.1` branch is checked
out with one tracked file in the working tree. -/
def c1_state : RepoState :=
  { branches := [("v1.1", [{ date := (2024, 1, 1), files := [("old", "o")] }])],
    tags := [], current := "v1.1", worktree := [("old", "o")], ncommits := 1 }

/-- C1 counterexample release: a valid, unwithdrawn release whose local
archive has two top-level entries (invalid layout). -/
def c1_release : Release :=
  { version := "P_R_00.01.01.2", heading := "", release_date := "2024.01.02",
    warning := "", tree := [],
    archive := some [{ name := "a", isDir := true, files := [] },
                     { name := "b", isDir := true, files := [] }] }

/-- C1 counterexample: importing a release whose archive has two
top-level entries creates no commit and no tag, but it does NOT leave
the working tree unchanged — the tree was already cleared before the
layout validation, so its contents differ after the rejected import. -/
theorem C1_reject_mutates_worktree_counterexample :
    (import_release_step c1_state ((2024, 1, 2), c1_release)).worktree = []
    ∧ c1_state.worktree ≠ []
    ∧ (import_release_step c1_state ((2024, 1, 2), c1_release)).ncommits
        = c1_state.ncommits
    ∧ (import_release_step c1_state ((2024, 1, 2), c1_release)).tags
        = c1_state.tags := by
  refine ⟨by decide, by decide, by decide, by decide⟩

/-- C1 (amended): a release whose archive does not contain exactly one
top-level directory entry is rejected with no commit and no tag created
and no archive content moved into the working tree; however the working
tree has already been cleared before the validation, so it is left
empty rather than unchanged. -/
theorem C1_invalid_layout_amended (s : RepoState) (d : Date) (r : Release)
    (info : SdkParts) (entries : List TarEntry)
    (hw : py_strip r.warning = "")
    (hd : derive_sdk_path_parts r.version = some info)
    (hshort : info.unified_short ≠ "")
    (ha : r.archive = some entries)
    (ht : repo_has_tag s info.gpl_version = false)
    (hbad : archive_layout_ok entries = false) :
    (import_release_step s (d, r)).ncommits = s.ncommits
    ∧ (import_release_step s (d, r)).tags = s.tags
    ∧ (import_release_step s (d, r)).worktree = [] := by
  have hclear : ∀ t : RepoState,
      extract_sdk_into_repo (clear_repo_worktree t) entries
        = (false, clear_repo_worktree t) :=
    fun t => extract_sdk_into_repo_fail (clear_repo_worktree t) entries hbad
  simp only [import_release_step, hw, hd, hshort, ha, ht, ne_eq,
    not_true_eq_false, not_false_eq_true, if_false, ite_false, ite_true,
    Bool.false_eq_true, hclear]
  have hco := create_or_checkout_tags_ncommits s
    (get_minor_from_unified_short info.unified_short)
  exact ⟨hco.2, hco.1, rfl⟩

/-- C1 witness: the amended statement applied at the concrete
counterexample state and release. -/
theorem C1_invalid_layout_amended_witness :
    (import_release_step c1_state ((2024, 1, 2), c1_release)).ncommits
        = c1_state.ncommits
    ∧ (import_release_step c1_state ((2024, 1, 2), c1_release)).tags
        = c1_state.tags
    ∧ (import_release_step c1_state ((2024, 1, 2), c1_release)).worktree
        = [] :=
  C1_invalid_layout_amended c1_state (2024, 1, 2) c1_release
    { product_code := "P", unified_full := "00.01.01.2",
      unified_short := "1.1.2", gpl_version := "P_R_GPL_00.01.01.2" }
    [{ name := "a", isDir := true, files := [] },
     { name := "b", isDir := true, files := [] }]
    (by decide) (by decide) (by decide) rfl (by decide) (by decide)

/-- C6: when `v<minor>` does not exist yet: with no existing minor-line
branch the new branch starts as an orphan with empty, disconnected
history; otherwise it is created from the greatest existing minor-line
branch, where branches are ordered by their `(major, minor)` pair
compared as integers. -/
theorem C6_branch_selection (s : RepoState) (minor : String)
    (hnb : branch_exists s ("v" ++ minor) = false) :
    (get_sorted_minor_branches s = [] →
        create_or_checkout_minor_branch s minor
            = checkout_orphan_branch s ("v" ++ minor)
          ∧ branch_history (checkout_orphan_branch s ("v" ++ minor))
              ("v" ++ minor) = [])
    ∧ (∀ base, (get_sorted_minor_branches s).getLast? = some base →
        base ∈ minor_branch_names s
        ∧ (∀ b ∈ minor_branch_names s,
            minor_key_le (minor_branch_key b) (minor_branch_key base) = true)
        ∧ create_or_checkout_minor_branch s minor
            = { checkout_branch s base with
                branches := s.branches
                  ++ [("v" ++ minor, branch_history s base)],
                current := "v" ++ minor }) := by
  constructor
  · intro hempty
    constructor
    · simp [create_or_checkout_minor_branch, hnb, hempty]
    · have hnotmem : ("v" ++ minor) ∉ s.branches.map Prod.fst := by
        simpa [branch_exists] using hnb
      simp [branch_history, checkout_orphan_branch,
        assoc_find_eq_none _ _ hnotmem]
  · intro base hbase
    obtain ⟨hne', heq⟩ :=
      List.mem_getLast?_eq_getLast (Option.mem_def.mpr hbase)
    refine ⟨?_, ?_, ?_⟩
    · have hmem : base ∈ get_sorted_minor_branches s :=
        heq ▸ List.getLast_mem hne'
      exact (mem_stableSort _ _ _).mp hmem
    · intro b hb
      have hbs : b ∈ get_sorted_minor_branches s :=
        (mem_stableSort _ _ _).mpr hb
      have hmax := getLast_key_max (fun n => minor_branch_key n) minor_key_le
        minor_key_le_total (get_sorted_minor_branches s) hne'
        (pairwise_stableSort (fun n => minor_branch_key n) minor_key_le
          minor_key_le_trans minor_key_le_total (minor_branch_names s))
        b hbs
      rw [heq]
      exact hmax
    · simp [create_or_checkout_minor_branch, hnb, hbase, checkout_branch,
        branch_history]

/-- C6 witness state: two minor-line branches `v7.9` and `v7.10`
(string order would pick `v7.9` as the greatest; integer order picks
`v7.10`). -/
def c6_state : RepoState :=
  { branches :=
      [("v7.9", [{ date := (2024, 1, 1), files := [("f", "9")] }]),
       ("v7.10", [{ date := (2024, 2, 1), files := [("f", "10")] }])],
    tags := [], current := "v7.10", worktree := [], ncommits := 2 }

/-- C6 witness: creating `v7.11` bases the new branch on `v7.10`, the
greatest existing minor branch under integer pair ordering. -/
theorem C6_branch_selection_witness :
    "v7.10" ∈ minor_branch_names c6_state
    ∧ (∀ b ∈ minor_branch_names c6_state,
        minor_key_le (minor_branch_key b) (minor_branch_key "v7.10") = true)
    ∧ create_or_checkout_minor_branch c6_state "7.11"
        = { checkout_branch c6_state "v7.10" with
            branches := c6_state.branches
              ++ [("v7.11", branch_history c6_state "v7.10")],
            current := "v7.11" } :=
  (C6_branch_selection c6_state "7.11" (by decide)).2 "v7.10" (by decide)

theorem tip_files_congr (s t : RepoState) (h : s.branches = t.branches)
    (n : String) : tip_files s n = tip_files t n := by
  simp [tip_files, branch_history, h]

theorem extract_sdk_into_repo_single_dir (s : RepoState) (nm : String)
    (fs : List (String × String)) :
    extract_sdk_into_repo s [{ name := nm, isDir := true, files := fs }]
      = (true, { s with worktree := s.worktree ++ fs }) := rfl

/-- The fixed-point shape of an import step on a release whose archive
contents coincide with its minor branch's tip. -/
theorem import_step_no_change (s : RepoState) (d : Date) (r : Release)
    (info : SdkParts) (nm : String) (fs : List (String × String))
    (hw : py_strip r.warning = "")
    (hd : derive_sdk_path_parts r.version = some info)
    (hshort : info.unified_short ≠ "")
    (ha : r.archive = some [{ name := nm, isDir := true, files := fs }])
    (ht : repo_has_tag s info.gpl_version = false)
    (hbe : branch_exists s
      ("v" ++ get_minor_from_unified_short info.unified_short) = true)
    (htip : tip_files s
      ("v" ++ get_minor_from_unified_short info.unified_short) = fs) :
    import_release_step s (d, r)
      = { s with
          current := "v" ++ get_minor_from_unified_short info.unified_short,
          worktree := fs } := by
  have hstep : ∀ t : RepoState,
      t.branches = s.branches →
      t.current = "v" ++ get_minor_from_unified_short info.unified_short →
      (commit_and_tag_repo
          { t with worktree := fs } info.gpl_version d).2
        = { t with worktree := fs } := by
    intro t hbr hcur
    have hcond : ({ t with worktree := fs } : RepoState).worktree
        = tip_files { t with worktree := fs }
            ({ t with worktree := fs } : RepoState).current := by
      show fs = tip_files { t with worktree := fs } t.current
      rw [tip_files_congr { t with worktree := fs } s (by simpa using hbr),
        hcur, htip]
    unfold commit_and_tag_repo
    rw [if_pos hcond]
  simp only [import_release_step, hw, hd, hshort, ha, ht, ne_eq,
    not_true_eq_false, not_false_eq_true, if_false, ite_false, ite_true,
    Bool.false_eq_true]
  unfold create_or_checkout_minor_branch
  simp only [hbe, if_true, ite_true]
  by_cases hcur : s.current
      = "v" ++ get_minor_from_unified_short info.unified_short
  · simp only [hcur, ne_eq, not_true_eq_false, if_false, ite_false,
      clear_repo_worktree, extract_sdk_into_repo_single_dir,
      List.nil_append]
    exact hstep
      { s with
        current := "v" ++ get_minor_from_unified_short info.unified_short }
      rfl rfl
  · simp only [hcur, ne_eq, not_false_eq_true, if_true, ite_true,
      clear_repo_worktree, extract_sdk_into_repo_single_dir,
      checkout_branch, List.nil_append]
    exact hstep
      { s with
        current := "v" ++ get_minor_from_unified_short info.unified_short }
      rfl rfl

/-- C10: `commit_and_tag_repo` creates a tag exactly when it creates a
commit; staging no change relative to the branch tip returns `false`
and leaves the repository untouched; consequently a release whose
archive contents equal the current branch tip never receives its tag,
and the next run re-evaluates it (checkout, clear, re-extract) and
reaches the identical no-op state instead of skipping it as imported. -/
theorem C10_tag_iff_commit :
    (∀ (s : RepoState) (g : String) (d : Date),
        ((commit_and_tag_repo s g d).2.tags = s.tags
          ↔ (commit_and_tag_repo s g d).2.ncommits = s.ncommits)
        ∧ (s.worktree = tip_files s s.current →
            commit_and_tag_repo s g d = (false, s)))
    ∧ (∀ (s : RepoState) (d : Date) (r : Release) (info : SdkParts)
        (nm : String) (fs : List (String × String)),
        py_strip r.warning = "" →
        derive_sdk_path_parts r.version = some info →
        info.unified_short ≠ "" →
        r.archive = some [{ name := nm, isDir := true, files := fs }] →
        repo_has_tag s info.gpl_version = false →
        branch_exists s
          ("v" ++ get_minor_from_unified_short info.unified_short) = true →
        tip_files s
          ("v" ++ get_minor_from_unified_short info.unified_short) = fs →
        (import_release_step s (d, r)).tags = s.tags
        ∧ (import_release_step s (d, r)).ncommits = s.ncommits
        ∧ import_release_step (import_release_step s (d, r)) (d, r)
            = import_release_step s (d, r)) := by
  constructor
  · intro s g d
    constructor
    · by_cases h : s.worktree = tip_files s s.current
      · simp [commit_and_tag_repo, h]
      · simp only [commit_and_tag_repo, h, if_false, ite_false]
        constructor
        · intro htags
          exact absurd htags (by simp)
        · intro hn
          exact absurd hn (by simp)
    · intro h
      simp [commit_and_tag_repo, h]
  · intro s d r info nm fs hw hd hshort ha ht hbe htip
    have h1 := import_step_no_change s d r info nm fs hw hd hshort ha ht hbe htip
    have hbe' : branch_exists
        ({ s with
            current := "v" ++ get_minor_from_unified_short info.unified_short,
            worktree := fs } : RepoState)
        ("v" ++ get_minor_from_unified_short info.unified_short) = true := by
      simpa [branch_exists] using hbe
    have ht' : repo_has_tag
        ({ s with
            current := "v" ++ get_minor_from_unified_short info.unified_short,
            worktree := fs } : RepoState) info.gpl_version = false := by
      simpa [repo_has_tag] using ht
    have htip' : tip_files
        ({ s with
            current := "v" ++ get_minor_from_unified_short info.unified_short,
            worktree := fs } : RepoState)
        ("v" ++ get_minor_from_unified_short info.unified_short) = fs := by
      rw [tip_files_congr _ s (by simp)]
      exact htip
    have h2 := import_step_no_change
      { s with
        current := "v" ++ get_minor_from_unified_short info.unified_short,
        worktree := fs } d r info nm fs hw hd hshort ha ht' hbe' htip'
    refine ⟨by rw [h1], by rw [h1], ?_⟩
    rw [h1, h2]

/-- C10 witness state: branch `v1.1` exists with tip contents equal to
the witness release's archive contents. -/
def c10_state : RepoState :=
  { branches := [("v1.1", [{ date := (2024, 1, 1), files := [("f", "x")] }])],
    tags := [("OTHER_TAG", [])], current := "master", worktree := [],
    ncommits := 1 }

/-- C10 witness release: archive is a single directory whose contents
equal the `v1.1` tip. -/
def c10_release : Release :=
  { version := "P_R_00.01.01.2", heading := "", release_date := "2024.01.02",
    warning := "", tree := [],
    archive := some [{ name := "d", isDir := true, files := [("f", "x")] }] }

/-- C10 witness: the no-change release leaves tags and commit count
unchanged and the repeated step is a fixed point. -/
theorem C10_tag_iff_commit_witness :
    (import_release_step c10_state ((2024, 1, 2), c10_release)).tags
        = c10_state.tags
    ∧ (import_release_step c10_state ((2024, 1, 2), c10_release)).ncommits
        = c10_state.ncommits
    ∧ import_release_step
          (import_release_step c10_state ((2024, 1, 2), c10_release))
          ((2024, 1, 2), c10_release)
        = import_release_step c10_state ((2024, 1, 2), c10_release) :=
  C10_tag_iff_commit.2 c10_state (2024, 1, 2) c10_release
    { product_code := "P", unified_full := "00.01.01.2",
      unified_short := "1.1.2", gpl_version := "P_R_GPL_00.01.01.2" }
    "d" [("f", "x")]
    (by decide) (by decide) (by decide) rfl (by decide) (by decide) (by decide)

/-! ## Rendering and download selection in `process_model`
(src lines 879-990) -/

/-- The markdown chunks written for one firmware entry (src lines
924-935): the `## heading` line (falling back to the version when the
stripped heading is empty), the warning blockquote when the stripped
warning is non-empty, and the rendered changelog with its separator
when non-empty.  Each list element is one `write` call. -/
def firmware_markdown_chunks (fw : Release) : List String :=
  let heading_line :=
    if py_strip fw.heading = "" then fw.version else py_strip fw.heading
  (["## " ++ heading_line ++ "\n\n"])
    ++ (if py_strip fw.warning ≠ "" then
          ["> ⚠️\n" ++ "> " ++ py_strip fw.warning ++ "\n\n"]
        else [])
    ++ (if tree_to_markdown fw.tree 3 ≠ "" then
          [tree_to_markdown fw.tree 3, "\n\n", "---", "\n\n"]
        else [])

/-- Model of the markdown generation of `process_model` step 4 (src
lines 913-935), as the list of chunks passed to `write`; `none` models
the `KeyError` crash when the `stable` or `latest` key is absent from
the parsed table. -/
def process_model_markdown (model : String)
    (stable_fw latest_fw : Option String) (fws : List Release) :
    Option (List String) :=
  match stable_fw, latest_fw with
  | some st, some la =>
    let overview :=
      if st ≠ "" ∨ la ≠ "" then
        ["## Overview\n\n"]
          ++ (if st ≠ "" then ["- Stable firmware: `" ++ st ++ "`\n"] else [])
          ++ (if la ≠ "" then ["- Latest firmware: `" ++ la ++ "`\n"] else [])
          ++ ["\n---\n\n"]
      else []
    some ((["# " ++ model ++ " firmware changelog\n\n"] ++ overview)
      ++ (fws.map firmware_markdown_chunks).flatten)
  | _, _ => none

/-- The versions the SDK download loop (src lines 969-980) passes to
`download_sdk_if_needed`: every release whose stripped warning is
empty; withdrawn releases are skipped before any download logic runs. -/
def download_loop_versions (fws : List Release) : List String :=
  fws.filterMap
    (fun fw => if py_strip fw.warning ≠ "" then none else some fw.version)

/-- C5: a release with non-empty (stripped) warning text is excluded
from history synthesis (its import step is the identity on the
repository state, so it never receives a commit or tag) and from
archive download (the loop never passes it to `download_sdk_if_needed`),
yet the rendered markdown still contains its heading and its warning
text as a blockquote. -/
theorem C5_withdrawn_release (fw : Release) (fws : List Release)
    (model st la : String)
    (hmem : fw ∈ fws)
    (hnodup : (fws.map Release.version).Nodup)
    (hw : py_strip fw.warning ≠ "") :
    (∀ (s : RepoState) (d : Date), import_release_step s (d, fw) = s)
    ∧ fw.version ∉ download_loop_versions fws
    ∧ (∃ chunks,
        process_model_markdown model (some st) (some la) fws = some chunks
        ∧ ("## " ++ (if py_strip fw.heading = "" then fw.version
              else py_strip fw.heading) ++ "\n\n") ∈ chunks
        ∧ ("> ⚠️\n" ++ "> " ++ py_strip fw.warning ++ "\n\n") ∈ chunks) := by
  refine ⟨?_, ?_, ?_⟩
  · intro s d
    simp [import_release_step, hw]
  · intro hin
    rcases List.mem_filterMap.mp hin with ⟨fw', hfw', hsome⟩
    by_cases hw' : py_strip fw'.warning ≠ ""
    · simp [hw'] at hsome
    · simp only [hw', if_false, Option.some.injEq, ite_false] at hsome
      have : fw' = fw :=
        List.inj_on_of_nodup_map hnodup hfw' hmem hsome
      rw [this] at hw'
      exact hw' hw
  · refine ⟨_, rfl, ?_, ?_⟩
    · apply List.mem_append_right
      apply List.mem_flatten.mpr
      refine ⟨firmware_markdown_chunks fw, List.mem_map_of_mem _ hmem, ?_⟩
      simp [firmware_markdown_chunks]
    · apply List.mem_append_right
      apply List.mem_flatten.mpr
      refine ⟨firmware_markdown_chunks fw, List.mem_map_of_mem _ hmem, ?_⟩
      simp [firmware_markdown_chunks, hw]

/-- C5 witness release: withdrawn (non-empty warning). -/
def c5_release : Release :=
  { version := "W_R_00.01.01.1", heading := "W_R_00.01.01.1 | 2024.01.01",
    release_date := "2024.01.01", warning := "This firmware is withdrawn",
    tree := [], archive := some [{ name := "d", isDir := true, files := [] }] }

/-- C5 witness: the withdrawn release never reaches the downloader and
still surfaces its warning in the rendered markdown. -/
theorem C5_withdrawn_release_witness :
    (∀ (s : RepoState) (d : Date), import_release_step s (d, c5_release) = s)
    ∧ c5_release.version ∉ download_loop_versions [c5_release]
    ∧ (∃ chunks,
        process_model_markdown "RUT951" (some "S") (some "L") [c5_release]
          = some chunks
        ∧ ("## " ++ (if py_strip c5_release.heading = "" then c5_release.version
              else py_strip c5_release.heading) ++ "\n\n") ∈ chunks
        ∧ ("> ⚠️\n" ++ "> " ++ py_strip c5_release.warning ++ "\n\n")
            ∈ chunks) :=
  C5_withdrawn_release c5_release [c5_release] "RUT951" "S" "L"
    (List.mem_singleton.mpr rfl) (by decide) (by decide)

/-! ## Idempotence of the synthesizer (C4) -/

/-- A release passes the input checks of the import loop (steps 1-4:
empty warning, parsable version, non-empty `unified_short`, local
archive present).  These depend only on the release itself. -/
def passes_checks (r : Release) : Bool :=
  decide (py_strip r.warning = "")
    && (match derive_sdk_path_parts r.version with
        | none => false
        | some info => decide (info.unified_short ≠ "") && r.archive.isSome)

/-- The release's archive is present and has a valid layout. -/
def release_layout_ok (r : Release) : Bool :=
  match r.archive with
  | some entries => archive_layout_ok entries
  | none => false

/-- The tag name (`gpl_version`) of a release with a parsable version. -/
def gpl_of (r : Release) : String :=
  match derive_sdk_path_parts r.version with
  | some info => info.gpl_version
  | none => ""

/-- A single import step can only create a commit or tag for a release
that passes the input checks, has a valid archive layout, and is not
yet tagged; under the hypothesis that any such release is already
tagged, the step preserves the tag list and the commit count. -/
theorem import_step_preserves_tags_ncommits (s : RepoState)
    (item : Date × Release)
    (h : passes_checks item.2 = true → release_layout_ok item.2 = true →
        gpl_of item.2 ∈ s.tags.map Prod.fst) :
    (import_release_step s item).tags = s.tags
    ∧ (import_release_step s item).ncommits = s.ncommits := by
  rcases item with ⟨d, r⟩
  simp only at h
  unfold import_release_step
  by_cases hw : py_strip r.warning = ""
  case neg => simp [hw]
  case pos =>
  simp only [hw, ne_eq, not_true_eq_false, if_false, ite_false]
  rcases hd : derive_sdk_path_parts r.version with _ | info
  · simp [hd]
  · simp only [hd]
    by_cases hshort : info.unified_short = ""
    · simp [hshort]
    · simp only [hshort, if_false, ite_false]
      rcases ha : r.archive with _ | entries
      · simp [ha]
      · simp only [ha]
        by_cases htag : repo_has_tag s info.gpl_version = true
        · simp [htag]
        · have htag' : repo_has_tag s info.gpl_version = false := by
            simpa using htag
          simp only [htag', Bool.false_eq_true, if_false, ite_false]
          by_cases hlay : archive_layout_ok entries = true
          · exfalso
            have hp : passes_checks r = true := by
              simp [passes_checks, hw, hd, hshort, ha]
            have hl : release_layout_ok r = true := by
              simp [release_layout_ok, ha, hlay]
            have hmem := h hp hl
            have hg : gpl_of r = info.gpl_version := by simp [gpl_of, hd]
            rw [hg] at hmem
            exact absurd hmem (by simpa [repo_has_tag] using htag')
          · have hlay' : archive_layout_ok entries = false := by
              simpa using hlay
            have hfail := extract_sdk_into_repo_fail
              (clear_repo_worktree (create_or_checkout_minor_branch s
                (get_minor_from_unified_short info.unified_short)))
              entries hlay'
            simp only [hfail]
            have hco := create_or_checkout_tags_ncommits s
              (get_minor_from_unified_short info.unified_short)
            exact ⟨by simp [clear_repo_worktree, hco.1],
              by simp [clear_repo_worktree, hco.2]⟩

/-- The import loop preserves tags and the commit count when every
release that could commit is already tagged. -/
theorem import_loop_preserves_tags_ncommits
    (items : List (Date × Release)) :
    ∀ s : RepoState,
      (∀ p ∈ items, passes_checks p.2 = true → release_layout_ok p.2 = true →
        gpl_of p.2 ∈ s.tags.map Prod.fst) →
      (import_sdks_loop s items).tags = s.tags
      ∧ (import_sdks_loop s items).ncommits = s.ncommits := by
  induction items with
  | nil => intro s _; exact ⟨rfl, rfl⟩
  | cons p ps ih =>
    intro s h
    have hstep := import_step_preserves_tags_ncommits s p
      (h p (List.mem_cons_self _ _))
    have hloop : import_sdks_loop s (p :: ps)
        = import_sdks_loop (import_release_step s p) ps := rfl
    have hnext : ∀ q ∈ ps, passes_checks q.2 = true →
        release_layout_ok q.2 = true →
        gpl_of q.2 ∈ (import_release_step s p).tags.map Prod.fst := by
      intro q hq hpq hlq
      rw [hstep.1]
      exact h q (List.mem_cons_of_mem _ hq) hpq hlq
    obtain ⟨h1, h2⟩ := ih (import_release_step s p) hnext
    rw [hloop]
    exact ⟨h1.trans hstep.1, h2.trans hstep.2⟩

/-- Success and effect of the pointer-branch reset: it preserves tags
and commit count, and its success depends only on the tag list. -/
theorem update_branch_head_ok (s : RepoState) (b v : String)
    (s' : RepoState)
    (h : update_branch_head_to_version s b v = Except.ok s') :
    s'.tags = s.tags ∧ s'.ncommits = s.ncommits
    ∧ ∀ t : RepoState, t.tags = s.tags →
        ∃ t', update_branch_head_to_version t b v = Except.ok t'
          ∧ t'.tags = t.tags ∧ t'.ncommits = t.ncommits := by
  unfold update_branch_head_to_version at h ⊢
  rcases hd : derive_sdk_path_parts v with _ | info
  · rw [hd] at h
    exact absurd h (by simp)
  · rw [hd] at h
    dsimp only at h
    rcases hf : assoc_find info.gpl_version s.tags with _ | hist
    · rw [hf] at h
      exact absurd h (by simp)
    · rw [hf] at h
      simp only [Except.ok.injEq] at h
      subst h
      refine ⟨rfl, rfl, ?_⟩
      intro t ht
      dsimp only
      rw [ht, hf]
      exact ⟨_, rfl, ht, rfl⟩

/-- C4 (amended): when every release that passes the input checks and
has a valid archive layout carries its tag after the first run (i.e. no
eligible release's archive contents coincided with its branch tip,
which would leave it untagged), a second run of the synthesizer on the
unchanged input succeeds and creates zero new commits and zero new
tags: every tagged release is skipped solely by the tag-existence
check, and the remaining releases are skipped by input checks or by
archive-layout validation, none of which commits or tags. -/
theorem C4_idempotence_amended (fws : List Release)
    (stable_fw latest_fw : Option String) (s0 s1 : RepoState)
    (hrun1 : import_sdks_into_git fws stable_fw latest_fw s0 = Except.ok s1)
    (H : ∀ r ∈ fws, passes_checks r = true → release_layout_ok r = true →
        gpl_of r ∈ s1.tags.map Prod.fst) :
    ∃ s2, import_sdks_into_git fws stable_fw latest_fw s1 = Except.ok s2
      ∧ s2.ncommits = s1.ncommits ∧ s2.tags = s1.tags := by
  unfold import_sdks_into_git at hrun1 ⊢
  rcases latest_fw with _ | la
  · exact absurd hrun1 (by simp)
  rcases stable_fw with _ | st
  · exact absurd hrun1 (by simp)
  simp only at hrun1 ⊢
  rcases hu1 : update_branch_head_to_version
      (import_sdks_loop s0 (sorted_firmwares_by_date fws)) "master" la
    with e | s2a
  · rw [hu1] at hrun1
    exact absurd hrun1 (by simp)
  · rw [hu1] at hrun1
    simp only at hrun1
    obtain ⟨h1tags, h1n, hgen1⟩ := update_branch_head_ok _ "master" la s2a hu1
    obtain ⟨h2tags, h2n, hgen2⟩ :=
      update_branch_head_ok s2a "stable" st s1 hrun1
    have hitems : ∀ p ∈ sorted_firmwares_by_date fws,
        passes_checks p.2 = true → release_layout_ok p.2 = true →
        gpl_of p.2 ∈ s1.tags.map Prod.fst := by
      intro p hp
      have hp' := (mem_stableSort _ p _).mp hp
      rcases List.mem_map.mp hp' with ⟨fw, hfw, heq⟩
      have hp2 : p.2 = fw := by rw [← heq]
      rw [hp2]
      exact H fw hfw
    obtain ⟨hlt, hln⟩ := import_loop_preserves_tags_ncommits
      (sorted_firmwares_by_date fws) s1 hitems
    obtain ⟨s2b, hu2, h2bt, h2bn⟩ := hgen1
      (import_sdks_loop s1 (sorted_firmwares_by_date fws))
      (by rw [hlt, h2tags, h1tags])
    obtain ⟨s2c, hu3, h2ct, h2cn⟩ := hgen2 s2b
      (by rw [h2bt, hlt, h2tags])
    refine ⟨s2c, ?_, ?_, ?_⟩
    · rw [hu2]
      exact hu3
    · rw [h2cn, h2bn, hln]
    · rw [h2ct, h2bt, hlt]

/-- C4 counterexample release A: first import on minor line `1.1`. -/
def c4_relA : Release :=
  { version := "P_R_00.01.01.1", heading := "", release_date := "2024.01.01",
    warning := "", tree := [],
    archive := some [{ name := "d", isDir := true, files := [("a", "1")] }] }

/-- C4 counterexample release B: its archive contents equal A's, so
importing it stages no change and creates no commit and no tag. -/
def c4_relB : Release :=
  { version := "P_R_00.01.01.2", heading := "", release_date := "2024.01.02",
    warning := "", tree := [],
    archive := some [{ name := "d", isDir := true, files := [("a", "1")] }] }

/-- C4 counterexample release C: different contents, committed after B. -/
def c4_relC : Release :=
  { version := "P_R_00.01.01.3", heading := "", release_date := "2024.01.03",
    warning := "", tree := [],
    archive := some [{ name := "d", isDir := true, files := [("a", "2")] }] }

/-- A freshly initialized repository. -/
def c4_s0 : RepoState :=
  { branches := [], tags := [], current := "master", worktree := [],
    ncommits := 0 }

/-- C4 counterexample: on releases A, B, C where B's archive equals A's
and C's differs, the first run makes 2 commits (A and C; B stages no
change and is left untagged), and the second run on the unchanged input
makes 1 further commit and new tags — B is re-evaluated against the
branch tip that C moved, so the second run is NOT free of new commits
and tags. -/
theorem C4_idempotence_counterexample :
    ((import_sdks_into_git [c4_relA, c4_relB, c4_relC]
        (some "P_R_00.01.01.1") (some "P_R_00.01.01.1") c4_s0).bind
      (fun s1 =>
        (import_sdks_into_git [c4_relA, c4_relB, c4_relC]
            (some "P_R_00.01.01.1") (some "P_R_00.01.01.1") s1).map
          (fun s2 =>
            (s1.ncommits, s2.ncommits - s1.ncommits,
              decide (s2.tags = s1.tags)))))
      = Except.ok (2, 1, false) := by
  rfl

/-- The state after one full run over just release A. -/
def c4_s1 : RepoState :=
  { branches :=
      [("v1.1", [{ date := (2024, 1, 1), files := [("a", "1")] }]),
       ("master", [{ date := (2024, 1, 1), files := [("a", "1")] }]),
       ("stable", [{ date := (2024, 1, 1), files := [("a", "1")] }])],
    tags := [("P_R_GPL_00.01.01.1",
      [{ date := (2024, 1, 1), files := [("a", "1")] }])],
    current := "v1.1", worktree := [("a", "1")], ncommits := 1 }

/-- C4 witness: the amended statement applied to a single-release input
whose first run tags the release; the second run is a no-op. -/
theorem C4_idempotence_amended_witness :
    ∃ s2, import_sdks_into_git [c4_relA]
        (some "P_R_00.01.01.1") (some "P_R_00.01.01.1") c4_s1
        = Except.ok s2
      ∧ s2.ncommits = c4_s1.ncommits ∧ s2.tags = c4_s1.tags :=
  C4_idempotence_amended [c4_relA]
    (some "P_R_00.01.01.1") (some "P_R_00.01.01.1") c4_s0 c4_s1
    (by rfl) (by decide)

/-! ## Archive acquisition (`download_sdk_if_needed`, src lines 411-473) -/

/-- Model of `load_unavailable_versions` (src lines 411-420): the set of
non-empty stripped lines of the skip file (an absent file is the empty
line list). -/
def load_unavailable_versions (lines : List String) : List String :=
  lines.filterMap
    (fun l => if py_strip l = "" then none else some (py_strip l))

/-- The network outcome of `urllib.request.urlopen` on the SDK URL. -/
inductive DlOutcome : Type where
  | success : DlOutcome
  | httpError : Nat → DlOutcome
  | urlError : DlOutcome
  deriving DecidableEq, Repr

/-- The acquisition state after `download_sdk_if_needed`: the in-memory
unavailable set, the persisted skip-file lines, the local SDK files
present (by filename), and whether a network request was issued. -/
structure DlResult where
  unavailable : List String
  skip_lines : List String
  files : List String
  attempted : Bool
  deriving DecidableEq, Repr

/-- Model of `download_sdk_if_needed` (src lines 423-473): skip without
a request when the version is in the unavailable set, when
`unified_short` is empty, or when the destination file already exists;
otherwise request the URL — on success write the file; on HTTP 403 add
the version to the in-memory set AND append it to the persisted skip
file; on any other HTTP error or a transport (URL) error just log,
changing nothing.  `none` models the uncaught `ValueError` that
`derive_sdk_path_parts` raises on a malformed version. -/
def download_sdk_if_needed (version : String) (outcome : DlOutcome)
    (unavailable skip_lines files : List String) : Option DlResult :=
  if version ∈ unavailable then
    some { unavailable, skip_lines, files, attempted := false }
  else
    match derive_sdk_path_parts version with
    | none => none
    | some info =>
      if info.unified_short = "" then
        some { unavailable, skip_lines, files, attempted := false }
      else
        let dest := info.gpl_version ++ ".tar.gz"
        if dest ∈ files then
          some { unavailable, skip_lines, files, attempted := false }
        else
          match outcome with
          | DlOutcome.success =>
            some { unavailable, skip_lines, files := files ++ [dest],
                   attempted := true }
          | DlOutcome.httpError code =>
            if code = 403 then
              some { unavailable := unavailable ++ [version],
                     skip_lines := skip_lines ++ [version], files,
                     attempted := true }
            else
              some { unavailable, skip_lines, files, attempted := true }
          | DlOutcome.urlError =>
            some { unavailable, skip_lines, files, attempted := true }

/-- C9: exactly an HTTP 403 marks a version sticky-unavailable — it is
appended to the in-memory set and to the persisted skip file, remains
in the loaded set on every later run however the file grows, and a
version in the set is skipped without any request; every other failure
(non-403 HTTP error or URL error) changes neither the set nor the file,
leaving the version eligible for retry. -/
theorem C9_forbidden_sticky (version : String) (info : SdkParts)
    (unavailable skip_lines files : List String)
    (hv : derive_sdk_path_parts version = some info)
    (hshort : info.unified_short ≠ "")
    (hnotin : version ∉ unavailable)
    (hnofile : info.gpl_version ++ ".tar.gz" ∉ files)
    (hself : py_strip version = version) (hvne : version ≠ "") :
    (download_sdk_if_needed version (DlOutcome.httpError 403)
        unavailable skip_lines files
      = some { unavailable := unavailable ++ [version],
               skip_lines := skip_lines ++ [version],
               files := files, attempted := true })
    ∧ (∀ code, code ≠ 403 →
        download_sdk_if_needed version (DlOutcome.httpError code)
            unavailable skip_lines files
          = some { unavailable := unavailable, skip_lines := skip_lines,
                   files := files, attempted := true })
    ∧ (download_sdk_if_needed version DlOutcome.urlError
          unavailable skip_lines files
        = some { unavailable := unavailable, skip_lines := skip_lines,
                 files := files, attempted := true })
    ∧ (∀ more : List String,
        version ∈ load_unavailable_versions
          ((skip_lines ++ [version]) ++ more))
    ∧ (∀ (outcome : DlOutcome) (unav' skip' files' : List String),
        version ∈ unav' →
        download_sdk_if_needed version outcome unav' skip' files'
          = some { unavailable := unav', skip_lines := skip',
                   files := files', attempted := false }) := by
  refine ⟨?_, ?_, ?_, ?_, ?_⟩
  · simp [download_sdk_if_needed, hnotin, hv, hshort, hnofile]
  · intro code hcode
    simp [download_sdk_if_needed, hnotin, hv, hshort, hnofile, hcode]
  · simp [download_sdk_if_needed, hnotin, hv, hshort, hnofile]
  · intro more
    apply List.mem_filterMap.mpr
    refine ⟨version, ?_, ?_⟩
    · exact List.mem_append_left _ (List.mem_append_right _
        (List.mem_singleton.mpr rfl))
    · simp [hself, hvne]
  · intro outcome unav' skip' files' hin
    simp [download_sdk_if_needed, hin]

/-- C9 witness: the statement applied at a concrete version with empty
initial acquisition state. -/
theorem C9_forbidden_sticky_witness :
    (download_sdk_if_needed "RUT9M_R_00.07.06.20"
        (DlOutcome.httpError 403) [] [] []
      = some { unavailable := [] ++ ["RUT9M_R_00.07.06.20"],
               skip_lines := [] ++ ["RUT9M_R_00.07.06.20"],
               files := [], attempted := true })
    ∧ (∀ code, code ≠ 403 →
        download_sdk_if_needed "RUT9M_R_00.07.06.20"
            (DlOutcome.httpError code) [] [] []
          = some { unavailable := [], skip_lines := [],
                   files := [], attempted := true })
    ∧ (download_sdk_if_needed "RUT9M_R_00.07.06.20" DlOutcome.urlError [] [] []
        = some { unavailable := [], skip_lines := [],
                 files := [], attempted := true })
    ∧ (∀ more : List String,
        "RUT9M_R_00.07.06.20" ∈ load_unavailable_versions
          (([] ++ ["RUT9M_R_00.07.06.20"]) ++ more))
    ∧ (∀ (outcome : DlOutcome) (unav' skip' files' : List String),
        "RUT9M_R_00.07.06.20" ∈ unav' →
        download_sdk_if_needed "RUT9M_R_00.07.06.20" outcome
            unav' skip' files'
          = some { unavailable := unav', skip_lines := skip',
                   files := files', attempted := false }) :=
  C9_forbidden_sticky "RUT9M_R_00.07.06.20"
    { product_code := "RUT9M", unified_full := "00.07.06.20",
      unified_short := "7.6.20", gpl_version := "RUT9M_R_GPL_00.07.06.20" }
    [] [] []
    (by decide) (by decide) (by decide) (by decide) (by decide) (by decide)

end Teltochronicle
